import Mathlib

/-!
Shallow embedding of `crates/runtimes/src/outputs.rs`: the execution-output
aggregator (`ExecutionView`), its output-block model (`OutputType`), and the
line-height computation, together with theorems checking the specification's
claims about them.

Machine integers: the Rust code computes line heights in `u8`.  We embed `u8`
values as `Nat` with explicit truncation (`% 256`, the semantics of Rust's
`as u8` cast) and explicit saturation (`min _ 255`, the semantics of
`u8::saturating_add`).

Collaborators not present in the sources (`TerminalOutput` from
`crates/runtimes/src/stdio.rs`, and `runtimelib`'s `MimeType`, message types
and `richest` selection) are modelled from the spec, each marked in its doc
comment.
-/

set_option maxRecDepth 100000

namespace Outputs

/-- The number of lines of a string under Rust `str::lines` semantics: lines
are separated by `\n`, a trailing `\n` does not produce an extra empty line,
and the empty string has zero lines.  (Rust also strips a trailing `\r` from
each line, which does not affect the count.) -/
def rustLinesCount (s : String) : Nat :=
  s.data.count '\n' + (if s.data ≠ [] ∧ s.data.getLast? ≠ some '\n' then 1 else 0)

/-- Rust `as u8` cast: truncation modulo 256. -/
def u8cast (n : Nat) : Nat := n % 256

/-- Rust `u8::saturating_add`: clamps at the maximum representable value 255. -/
def u8satAdd (a b : Nat) : Nat := min (a + b) 255

/-- Modelled from the spec: the terminal-text buffer collaborator
(`TerminalOutput` in `crates/runtimes/src/stdio.rs`, not among the sources) is
"an opaque accumulator" exposing append, line count and render.  We model its
state as the accumulated text. -/
structure TerminalOutput where
  buffer : String
deriving Repr, DecidableEq

/-- `TerminalOutput::new()`: a fresh, empty buffer. -/
def TerminalOutput.new : TerminalOutput := ⟨""⟩

/-- `TerminalOutput::append_text`: append a chunk of raw text. -/
def TerminalOutput.append_text (t : TerminalOutput) (s : String) : TerminalOutput :=
  ⟨t.buffer ++ s⟩

/-- Modelled from the spec: the buffer reports "how many display lines the
buffer currently spans" as an unsigned integer (`u8` in the trait), "capped by
saturating arithmetic". -/
def TerminalOutput.num_lines (t : TerminalOutput) : Nat :=
  min (rustLinesCount t.buffer) 255

/-- Modelled from the spec: `TerminalOutput::from(&str)` seeds a fresh buffer
with the given text. -/
def TerminalOutput.from (s : String) : TerminalOutput :=
  TerminalOutput.new.append_text s

/-- Modelled from the spec: `runtimelib::MimeType`, the content-type
identifier of a MIME mapping entry.  The two prioritized textual types are
`Markdown` and `Plain`; the remaining variants stand for the other types a
kernel may offer. -/
inductive MimeType where
  | Plain
  | Markdown
  | Html
  | Latex
  | Javascript
  | Json
  | Svg
  | Png
  | Jpeg
  | Other (s : String)
deriving Repr, DecidableEq, BEq

/-- `serde_json::Value`: an opaque structured JSON value. -/
inductive Value where
  | null
  | bool (b : Bool)
  | num (n : Int)
  | str (s : String)
  | arr (xs : List Value)
  | obj (kvs : List (String × Value))

/-- `serde_json::Value::as_str`: `some` exactly on string values. -/
def Value.as_str : Value → Option String
  | .str s => some s
  | _ => none

/-- A MIME mapping: an associative structure from MIME type to the value
encoded in that type (a kernel message's `data` field). -/
abbrev MimeMapping := List (MimeType × Value)

/-- Modelled from the spec: `runtimelib`'s `richest` selection over a MIME
mapping (not among the sources): "select the first MIME type in priority
order that is present in the mapping"; if none of the prioritized types is
present, selection fails. -/
def richest (data : MimeMapping) (priority : List MimeType) : Option (MimeType × Value) :=
  priority.findSome? fun m =>
    (data.find? fun p => p.1 == m).map fun p => (m, p.2)

/-- Stdio stream identity of a `StreamContent` message. -/
inductive StreamName where
  | stdout
  | stderr
deriving Repr, DecidableEq

/-- `runtimelib::ExecutionState` carried by a `Status` message. -/
inductive ExecutionState where
  | Busy
  | Idle
deriving Repr, DecidableEq

structure ExecuteResultMsg where
  data : MimeMapping

structure DisplayDataMsg where
  data : MimeMapping

structure StreamContentMsg where
  name : StreamName
  text : String
deriving Repr, DecidableEq

structure ErrorOutputMsg where
  ename : String
  evalue : String
  traceback : List String
deriving Repr, DecidableEq

structure StatusMsg where
  execution_state : ExecutionState
deriving Repr, DecidableEq

/-- `runtimelib::JupyterMessageContent`, restricted to the message kinds the
aggregator matches on; `OtherMessage` stands for every remaining kind (the
`_msg` arm of the source's match). -/
inductive JupyterMessageContent where
  | ExecuteResult (result : ExecuteResultMsg)
  | DisplayData (result : DisplayDataMsg)
  | StreamContent (result : StreamContentMsg)
  | ErrorOutput (result : ErrorOutputMsg)
  | Status (status : StatusMsg)
  | OtherMessage

/-- `OutputType` from `outputs.rs`: the tagged union of output blocks. -/
inductive OutputType where
  | Plain (stdio : TerminalOutput)
  | Media (mimetype : MimeType) (value : Value)
  | Stream (stdio : TerminalOutput)
  | ErrorOutput (ename : String) (evalue : String) (traceback : TerminalOutput)

-- Priority order goes from highest to lowest (plaintext is the common fallback)
def PRIORITY_ORDER : List MimeType := [MimeType.Markdown, MimeType.Plain]

/-- `LineHeight for OutputType::num_lines` from `outputs.rs`.  Rust's
`count() as u8` is the truncating cast `u8cast`; the error arm accumulates
with `u8::saturating_add`. -/
def OutputType.num_lines : OutputType → Nat
  | .Plain stdio => stdio.num_lines
  | .Media _ value => u8cast (rustLinesCount ((value.as_str).getD ""))
  | .Stream stdio => stdio.num_lines
  | .ErrorOutput ename evalue traceback =>
      let height : Nat := 0
      let height := u8satAdd height (u8cast (rustLinesCount ename))
      let height := u8satAdd height (u8cast (rustLinesCount evalue))
      let height := u8satAdd height traceback.num_lines
      height

/-- `ExecutionStatus` from `outputs.rs`. -/
inductive ExecutionStatus where
  | Unknown
  | ConnectingToKernel
  | Executing
  | Finished
deriving Repr, DecidableEq

/-- `ExecutionView` from `outputs.rs`: the aggregator's state for one
execution request. -/
structure ExecutionView where
  execution_id : Nat
  outputs : List OutputType
  status : ExecutionStatus

/-- `ExecutionView::new`. -/
def ExecutionView.new (execution_id : Nat) : ExecutionView :=
  { execution_id := execution_id, outputs := [], status := ExecutionStatus.Unknown }

/-- `ExecutionView::apply_terminal_text`: if the last output is a `Stream`
block, append the text to its buffer in place (returning `none` — no new
output needed); otherwise return a fresh `Stream` block seeded with the text.
The in-place mutation of the last element is modelled by replacing the last
element of the list. -/
def ExecutionView.apply_terminal_text (self : ExecutionView) (text : String) :
    ExecutionView × Option OutputType :=
  match self.outputs.getLast? with
  | some (OutputType.Stream last_stream) =>
      ({ self with
          outputs := self.outputs.dropLast ++ [OutputType.Stream (last_stream.append_text text)] },
        none)
  | _ =>
      (self, some (OutputType.Stream (TerminalOutput.new.append_text text)))

/-- `ExecutionView::push_message`: accept one Jupyter message belonging to
this execution.  The early `return`s of the source are the branches that
yield `self` unchanged (apart from the status update on `Status`). -/
def ExecutionView.push_message (self : ExecutionView) (message : JupyterMessageContent) :
    ExecutionView :=
  match message with
  | .ExecuteResult result =>
      match richest result.data PRIORITY_ORDER with
      | none =>
          -- We don't support this media type, so just ignore it
          self
      | some (mimetype, value) =>
          let output := match mimetype with
            | .Plain => OutputType.Plain (TerminalOutput.from ((value.as_str).getD ""))
            | .Markdown => OutputType.Plain (TerminalOutput.from ((value.as_str).getD ""))
            -- We don't handle this type, but ok
            | _ => OutputType.Media mimetype value
          { self with outputs := self.outputs ++ [output] }
  | .DisplayData result =>
      match richest result.data PRIORITY_ORDER with
      | none => self
      | some (mimetype, value) =>
          { self with outputs := self.outputs ++ [OutputType.Media mimetype value] }
  | .StreamContent result =>
      match self.apply_terminal_text result.text with
      | (self', some new_terminal) => { self' with outputs := self'.outputs ++ [new_terminal] }
      | (self', none) => self'
  | .ErrorOutput result =>
      let terminal := TerminalOutput.new.append_text (String.intercalate "\n" result.traceback)
      { self with
          outputs := self.outputs ++
            [OutputType.ErrorOutput result.ename result.evalue terminal] }
  | .Status status =>
      match status.execution_state with
      | .Busy => { self with status := ExecutionStatus.Executing }
      | .Idle => { self with status := ExecutionStatus.Finished }
  | .OtherMessage => self

/-- `ExecutionView::set_status`. -/
def ExecutionView.set_status (self : ExecutionView) (status : ExecutionStatus) : ExecutionView :=
  { self with status := status }

/-- `LineHeight for ExecutionView::num_lines` from `outputs.rs`: `1` when
outputs is empty, otherwise the saturating sum of the per-block line counts. -/
def ExecutionView.num_lines (self : ExecutionView) : Nat :=
  if self.outputs.isEmpty then 1
  else (self.outputs.map OutputType.num_lines).foldl u8satAdd 0

/-- Fold a whole message sequence into the aggregator, in arrival order. -/
def ExecutionView.pushAll (self : ExecutionView) (ms : List JupyterMessageContent) :
    ExecutionView :=
  ms.foldl ExecutionView.push_message self

/-! ### Helper lemmas -/

theorem terminal_num_lines_le (t : TerminalOutput) : t.num_lines ≤ 255 :=
  min_le_right _ _

theorem output_num_lines_le (o : OutputType) : o.num_lines ≤ 255 := by
  cases o with
  | Plain s => exact min_le_right _ _
  | Media m v => exact Nat.le_of_lt_succ (Nat.mod_lt _ (by omega))
  | Stream s => exact min_le_right _ _
  | ErrorOutput e v t =>
      show u8satAdd _ _ ≤ 255
      unfold u8satAdd
      omega

theorem foldl_u8satAdd (l : List Nat) :
    ∀ a : Nat, a ≤ 255 → l.foldl u8satAdd a = min (a + l.sum) 255 := by
  induction l with
  | nil =>
      intro a ha
      simp only [List.foldl_nil, List.sum_nil, Nat.add_zero]
      omega
  | cons x xs ih =>
      intro a ha
      rw [List.foldl_cons, ih (u8satAdd a x) (by unfold u8satAdd; omega)]
      unfold u8satAdd
      simp only [List.sum_cons]
      omega

theorem eq_dropLast_concat {α : Type} (l : List α) (a : α) (h : l.getLast? = some a) :
    l = l.dropLast ++ [a] := by
  obtain ⟨l', rfl⟩ := List.getLast?_eq_some_iff.mp h
  simp

theorem push_stream_merge (v : ExecutionView) (n : StreamName) (t : String)
    (buf : TerminalOutput) (h : v.outputs.getLast? = some (OutputType.Stream buf)) :
    v.push_message (.StreamContent ⟨n, t⟩)
      = { v with outputs := v.outputs.dropLast ++ [OutputType.Stream (buf.append_text t)] } := by
  unfold ExecutionView.push_message ExecutionView.apply_terminal_text
  simp [h]

theorem push_stream_fresh (v : ExecutionView) (n : StreamName) (t : String)
    (h : ∀ buf, v.outputs.getLast? ≠ some (OutputType.Stream buf)) :
    v.push_message (.StreamContent ⟨n, t⟩)
      = { v with outputs := v.outputs ++ [OutputType.Stream (TerminalOutput.new.append_text t)] } := by
  unfold ExecutionView.push_message ExecutionView.apply_terminal_text
  cases hl : v.outputs.getLast? with
  | none => simp
  | some o =>
      cases o with
      | Plain s => simp
      | Media m val => simp
      | Stream buf => exact absurd hl (h buf)
      | ErrorOutput e val t => simp

/-! ### Claims -/

/-- C1: accepting a StreamContent message merges into the last block when that
block is a StreamText block (appending the text to its buffer in place, length
unchanged) and otherwise appends a new StreamText block seeded with the text;
in particular StreamContent "a", then an ErrorOutput, then StreamContent "b"
yields the three blocks StreamText "a", ErrorResult, StreamText "b", with the
second stream block not merged into the first. -/
theorem stream_merge_or_create (v : ExecutionView) (n : StreamName) (text : String) :
    (match v.outputs.getLast? with
     | some (OutputType.Stream b) =>
         (v.push_message (.StreamContent ⟨n, text⟩)).outputs
             = v.outputs.dropLast ++ [OutputType.Stream (b.append_text text)]
           ∧ (v.push_message (.StreamContent ⟨n, text⟩)).outputs.length
             = v.outputs.length
     | _ =>
         (v.push_message (.StreamContent ⟨n, text⟩)).outputs
             = v.outputs ++ [OutputType.Stream (TerminalOutput.new.append_text text)])
    ∧ ((((ExecutionView.new 0).push_message
          (.StreamContent ⟨.stdout, "a"⟩)).push_message
          (.ErrorOutput ⟨"E", "V", ["tb"]⟩)).push_message
          (.StreamContent ⟨.stdout, "b"⟩)).outputs
        = [OutputType.Stream ⟨"a"⟩, OutputType.ErrorOutput "E" "V" ⟨"tb"⟩,
           OutputType.Stream ⟨"b"⟩] := by
  constructor
  · cases hl : v.outputs.getLast? with
    | none =>
        exact congrArg ExecutionView.outputs
          (push_stream_fresh v n text (by simp [hl]))
    | some o =>
        cases o with
        | Stream buf =>
            refine ⟨congrArg ExecutionView.outputs (push_stream_merge v n text buf hl), ?_⟩
            rw [push_stream_merge v n text buf hl]
            conv => rhs; rw [eq_dropLast_concat v.outputs _ hl]
            simp
        | Plain s =>
            exact congrArg ExecutionView.outputs
              (push_stream_fresh v n text (by simp [hl]))
        | Media m val =>
            exact congrArg ExecutionView.outputs
              (push_stream_fresh v n text (by simp [hl]))
        | ErrorOutput e val t =>
            exact congrArg ExecutionView.outputs
              (push_stream_fresh v n text (by simp [hl]))
  · rfl

/-- C2: when representation selection over a mapping picks a textual type
(markdown or plain), accepting an ExecuteResult carrying that mapping appends
a PlainText block seeded with the value text (empty string when the value is
not textual), while accepting a DisplayData carrying the identical mapping
appends a Media block with the chosen MIME type and raw value. -/
theorem execute_result_vs_display_data (v : ExecutionView) (data : MimeMapping)
    (m : MimeType) (val : Value)
    (hsel : richest data PRIORITY_ORDER = some (m, val))
    (htext : m = MimeType.Markdown ∨ m = MimeType.Plain) :
    (v.push_message (.ExecuteResult ⟨data⟩)).outputs
      = v.outputs ++ [OutputType.Plain (TerminalOutput.from ((val.as_str).getD ""))]
    ∧ (v.push_message (.DisplayData ⟨data⟩)).outputs
      = v.outputs ++ [OutputType.Media m val] := by
  constructor
  · unfold ExecutionView.push_message
    rcases htext with h | h <;> subst h <;> simp [hsel, TerminalOutput.from]
  · unfold ExecutionView.push_message
    simp [hsel]

/-- C2 witness: at the concrete mapping with one markdown entry "hi". -/
theorem execute_result_vs_display_data_witness :
    ((ExecutionView.new 0).push_message
        (.ExecuteResult ⟨[(MimeType.Markdown, Value.str "hi")]⟩)).outputs
      = [OutputType.Plain (TerminalOutput.from "hi")]
    ∧ ((ExecutionView.new 0).push_message
        (.DisplayData ⟨[(MimeType.Markdown, Value.str "hi")]⟩)).outputs
      = [OutputType.Media MimeType.Markdown (Value.str "hi")] :=
  execute_result_vs_display_data (ExecutionView.new 0)
    [(MimeType.Markdown, Value.str "hi")] MimeType.Markdown (Value.str "hi")
    rfl (Or.inl rfl)

/-- C3: selection uses the fixed priority list [markdown, plain]; a mapping
holding both a markdown and a plain entry selects the markdown entry; a
mapping holding neither fails; and identical mappings yield identical
choices. -/
theorem richest_priority (data : MimeMapping) (pm pp : MimeType × Value)
    (hm : data.find? (fun p => p.1 == MimeType.Markdown) = some pm)
    (hp : data.find? (fun p => p.1 == MimeType.Plain) = some pp) :
    PRIORITY_ORDER = [MimeType.Markdown, MimeType.Plain]
    ∧ richest data PRIORITY_ORDER = some (MimeType.Markdown, pm.2)
    ∧ (∀ d : MimeMapping,
        d.find? (fun p => p.1 == MimeType.Markdown) = none →
        d.find? (fun p => p.1 == MimeType.Plain) = none →
        richest d PRIORITY_ORDER = none)
    ∧ (∀ d₁ d₂ : MimeMapping, d₁ = d₂ →
        richest d₁ PRIORITY_ORDER = richest d₂ PRIORITY_ORDER) := by
  refine ⟨rfl, ?_, ?_, ?_⟩
  · unfold richest PRIORITY_ORDER
    simp [List.findSome?_cons, hm]
  · intro d h1 h2
    unfold richest PRIORITY_ORDER
    simp [List.findSome?_cons, h1, h2]
  · intro d₁ d₂ h
    rw [h]

/-- C3 witness: a mapping with both entries selects markdown; the empty
mapping fails. -/
theorem richest_priority_witness :
    richest [(MimeType.Plain, Value.str "p"), (MimeType.Markdown, Value.str "m")]
        PRIORITY_ORDER
      = some (MimeType.Markdown, Value.str "m")
    ∧ richest [(MimeType.Png, Value.null)] PRIORITY_ORDER = none := by
  have h := richest_priority
    [(MimeType.Plain, Value.str "p"), (MimeType.Markdown, Value.str "m")]
    (MimeType.Markdown, Value.str "m") (MimeType.Plain, Value.str "p") rfl rfl
  exact ⟨h.2.1, h.2.2.1 [(MimeType.Png, Value.null)] rfl rfl⟩

/-- A string of 256 lines ("a" repeated on 256 lines): its line count does not
fit in `u8`, so Rust's `count() as u8` cast wraps it to 0. -/
def bigEname : String := String.join (List.replicate 256 "a\n")

/-- C4 counterexample: an ErrorResult block whose ename alone has 256 lines —
so the combined line counts exceed 255 — reports a wrapped value (1, from the
`as u8` cast of 256 wrapping to 0 plus evalue's single line), not the maximum
255. -/
theorem num_lines_wrap_counterexample :
    255 < rustLinesCount bigEname + rustLinesCount "v" + TerminalOutput.new.num_lines
    ∧ (OutputType.ErrorOutput bigEname "v" TerminalOutput.new).num_lines = 1
    ∧ (OutputType.ErrorOutput bigEname "v" TerminalOutput.new).num_lines ≠ 255 := by
  refine ⟨by decide, by decide, by decide⟩

/-- C4 amended: each part's line count is first truncated to u8 by Rust's
wrapping `as u8` cast; the parts are then combined with saturating addition.
Hence whenever every individual count fits in u8, the reported value is the
total clamped at 255 — in particular it saturates at 255 instead of wrapping
when only the sum overflows. -/
theorem num_lines_saturating_amended (ename evalue : String) (tr : TerminalOutput)
    (h1 : rustLinesCount ename ≤ 255) (h2 : rustLinesCount evalue ≤ 255) :
    (OutputType.ErrorOutput ename evalue tr).num_lines
      = min (rustLinesCount ename + rustLinesCount evalue + tr.num_lines) 255 := by
  have h3 : tr.num_lines ≤ 255 := terminal_num_lines_le tr
  show u8satAdd (u8satAdd (u8satAdd 0 (u8cast (rustLinesCount ename)))
      (u8cast (rustLinesCount evalue))) tr.num_lines = _
  unfold u8satAdd u8cast
  rw [Nat.mod_eq_of_lt (by omega), Nat.mod_eq_of_lt (by omega)]
  omega

/-- C4 amended witness: a 130-line ename plus a 130-line evalue saturates at
255 rather than wrapping. -/
theorem num_lines_saturating_amended_witness :
    rustLinesCount (String.join (List.replicate 130 "a\n")) ≤ 255
    ∧ (OutputType.ErrorOutput (String.join (List.replicate 130 "a\n"))
          (String.join (List.replicate 130 "a\n")) TerminalOutput.new).num_lines
      = min (rustLinesCount (String.join (List.replicate 130 "a\n"))
          + rustLinesCount (String.join (List.replicate 130 "a\n"))
          + TerminalOutput.new.num_lines) 255 :=
  ⟨by decide,
    num_lines_saturating_amended (String.join (List.replicate 130 "a\n"))
      (String.join (List.replicate 130 "a\n")) TerminalOutput.new
      (by decide) (by decide)⟩

/-- C5: every error condition of accept is a silent no-op — a result or
display message whose mapping has none of the prioritized types, or a message
of an unsupported kind, leaves the aggregator (outputs and status) unchanged;
accept is total and returns no failure. -/
theorem accept_error_conditions_noop (v : ExecutionView) (data : MimeMapping)
    (hsel : richest data PRIORITY_ORDER = none) :
    v.push_message (.ExecuteResult ⟨data⟩) = v
    ∧ v.push_message (.DisplayData ⟨data⟩) = v
    ∧ v.push_message .OtherMessage = v := by
  refine ⟨?_, ?_, rfl⟩ <;> · unfold ExecutionView.push_message; simp [hsel]

/-- C5 witness: at a mapping holding only a png entry. -/
theorem accept_error_conditions_noop_witness :
    (ExecutionView.new 7).push_message
        (.ExecuteResult ⟨[(MimeType.Png, Value.null)]⟩) = ExecutionView.new 7
    ∧ (ExecutionView.new 7).push_message
        (.DisplayData ⟨[(MimeType.Png, Value.null)]⟩) = ExecutionView.new 7
    ∧ (ExecutionView.new 7).push_message .OtherMessage = ExecutionView.new 7 :=
  accept_error_conditions_noop (ExecutionView.new 7) [(MimeType.Png, Value.null)] rfl

/-- C6: a Status message with busy state sets status to Executing, with idle
state sets it to Finished, in both cases appending no block; hence busy then
idle leaves status Finished and outputs unchanged, from any starting state. -/
theorem status_updates (v : ExecutionView) :
    (v.push_message (.Status ⟨.Busy⟩)).status = ExecutionStatus.Executing
    ∧ (v.push_message (.Status ⟨.Busy⟩)).outputs = v.outputs
    ∧ (v.push_message (.Status ⟨.Idle⟩)).status = ExecutionStatus.Finished
    ∧ (v.push_message (.Status ⟨.Idle⟩)).outputs = v.outputs
    ∧ ((v.push_message (.Status ⟨.Busy⟩)).push_message (.Status ⟨.Idle⟩)).status
      = ExecutionStatus.Finished
    ∧ ((v.push_message (.Status ⟨.Busy⟩)).push_message (.Status ⟨.Idle⟩)).outputs
      = v.outputs :=
  ⟨rfl, rfl, rfl, rfl, rfl, rfl⟩

/-- C7: accepting an ErrorOutput message appends exactly one new ErrorResult
block, wrapping ename, evalue and a fresh buffer seeded with the traceback
lines joined by newline, to the end of the outputs sequence, mutating no prior
block. -/
theorem error_output_appends (v : ExecutionView) (ename evalue : String)
    (tb : List String) :
    (v.push_message (.ErrorOutput ⟨ename, evalue, tb⟩)).outputs
      = v.outputs ++ [OutputType.ErrorOutput ename evalue
          (TerminalOutput.new.append_text (String.intercalate "\n" tb))]
    ∧ (v.push_message (.ErrorOutput ⟨ename, evalue, tb⟩)).outputs.length
      = v.outputs.length + 1 := by
  refine ⟨rfl, ?_⟩
  show (v.outputs ++ [_]).length = _
  simp

/-- C8: the aggregate line height is 1 whenever outputs is empty, and
otherwise the saturating sum of the per-block line counts — i.e. the plain sum
clamped at 255. -/
theorem aggregate_line_height (v : ExecutionView) :
    (v.outputs = [] → v.num_lines = 1)
    ∧ (v.outputs ≠ [] →
        v.num_lines = min ((v.outputs.map OutputType.num_lines).sum) 255) := by
  constructor
  · intro h
    unfold ExecutionView.num_lines
    simp [h]
  · intro h
    unfold ExecutionView.num_lines
    rw [if_neg (by simpa using h)]
    rw [foldl_u8satAdd _ 0 (by omega)]
    simp

/-- C8 witness: the fresh aggregator reports 1; an aggregator holding one
two-line plain block reports the clamped sum. -/
theorem aggregate_line_height_witness :
    (ExecutionView.new 0).num_lines = 1
    ∧ ({ ExecutionView.new 0 with
          outputs := [OutputType.Plain ⟨"x\ny"⟩] } : ExecutionView).num_lines
      = min (([OutputType.Plain ⟨"x\ny"⟩].map OutputType.num_lines).sum) 255 :=
  ⟨(aggregate_line_height (ExecutionView.new 0)).1 rfl,
    (aggregate_line_height _).2 (by simp)⟩

/-- One accept call relates old and new outputs append-only: either unchanged,
or one block appended at the end, or the last block is a stream block whose
buffer grew in place. -/
def AppendOnlyStep (old new : List OutputType) : Prop :=
  new = old
  ∨ (∃ b, new = old ++ [b])
  ∨ (∃ rest buf text, old = rest ++ [OutputType.Stream buf]
      ∧ new = rest ++ [OutputType.Stream (buf.append_text text)])

/-- The messages `ms`, accepted starting from state `v`, each append exactly
the corresponding block of `bs` (no merges, no skips). -/
def ProducesBlocks : ExecutionView → List JupyterMessageContent → List OutputType → Prop
  | _, [], bs => bs = []
  | v, m :: ms, bs =>
      ∃ b bs', bs = b :: bs'
        ∧ (v.push_message m).outputs = v.outputs ++ [b]
        ∧ ProducesBlocks (v.push_message m) ms bs'

/-- C9: every accept call extends the outputs sequence append-only (no block
removed, reordered or changed in variant; the only in-place change is growth
of a last stream block's buffer), and a message sequence whose members each
produce a block leaves exactly those blocks appended in arrival order. -/
theorem outputs_append_only (v : ExecutionView) (m : JupyterMessageContent)
    (ms : List JupyterMessageContent) (bs : List OutputType) :
    AppendOnlyStep v.outputs (v.push_message m).outputs
    ∧ (ProducesBlocks v ms bs → (v.pushAll ms).outputs = v.outputs ++ bs) := by
  constructor
  · unfold AppendOnlyStep
    cases m with
    | ExecuteResult result =>
        cases hsel : richest result.data PRIORITY_ORDER with
        | none =>
            left
            unfold ExecutionView.push_message
            simp [hsel]
        | some p =>
            right; left
            unfold ExecutionView.push_message
            simp [hsel]
    | DisplayData result =>
        cases hsel : richest result.data PRIORITY_ORDER with
        | none =>
            left
            unfold ExecutionView.push_message
            simp [hsel]
        | some p =>
            right; left
            unfold ExecutionView.push_message
            simp [hsel]
    | StreamContent result =>
        obtain ⟨nm, tx⟩ := result
        cases hl : v.outputs.getLast? with
        | none =>
            right; left
            rw [push_stream_fresh v nm tx (by simp [hl])]
            exact ⟨_, rfl⟩
        | some o =>
            cases o with
            | Stream buf =>
                right; right
                exact ⟨v.outputs.dropLast, buf, tx, eq_dropLast_concat _ _ hl,
                  by rw [push_stream_merge v nm tx buf hl]⟩
            | Plain s =>
                right; left
                rw [push_stream_fresh v nm tx (by simp [hl])]
                exact ⟨_, rfl⟩
            | Media mt val =>
                right; left
                rw [push_stream_fresh v nm tx (by simp [hl])]
                exact ⟨_, rfl⟩
            | ErrorOutput en ev tb =>
                right; left
                rw [push_stream_fresh v nm tx (by simp [hl])]
                exact ⟨_, rfl⟩
    | ErrorOutput result =>
        right; left
        exact ⟨_, rfl⟩
    | Status st =>
        obtain ⟨es⟩ := st
        cases es <;> exact Or.inl rfl
    | OtherMessage =>
        left
        rfl
  · induction ms generalizing v bs with
    | nil =>
        intro hp
        simp only [ProducesBlocks] at hp
        subst hp
        simp [ExecutionView.pushAll]
    | cons m' ms' ih =>
        intro hp
        obtain ⟨b, bs', rfl, hstep, hrest⟩ := hp
        have hi := ih (v.push_message m') bs' hrest
        unfold ExecutionView.pushAll at hi ⊢
        rw [List.foldl_cons, hi, hstep]
        simp

/-- C9 witness: an ErrorOutput message then a StreamContent message, from a
fresh aggregator, append their two blocks in arrival order. -/
theorem outputs_append_only_witness :
    ((ExecutionView.new 0).pushAll
        [.ErrorOutput ⟨"E", "V", ["tb"]⟩, .StreamContent ⟨.stdout, "s"⟩]).outputs
      = (ExecutionView.new 0).outputs
        ++ [OutputType.ErrorOutput "E" "V" ⟨"tb"⟩, OutputType.Stream ⟨"s"⟩] :=
  (outputs_append_only (ExecutionView.new 0) .OtherMessage
      [.ErrorOutput ⟨"E", "V", ["tb"]⟩, .StreamContent ⟨.stdout, "s"⟩]
      [OutputType.ErrorOutput "E" "V" ⟨"tb"⟩, OutputType.Stream ⟨"s"⟩]).2
    ⟨OutputType.ErrorOutput "E" "V" ⟨"tb"⟩, [OutputType.Stream ⟨"s"⟩], rfl, rfl,
      OutputType.Stream ⟨"s"⟩, [], rfl, rfl, rfl⟩

/-- C10: accepting a StreamContent message is independent of the stream's
identity (the aggregator never inspects the name), so two consecutive stream
chunks coalesce into one block even across stdout/stderr; concretely, stdout
chunk "a" then stderr chunk "b" from a fresh aggregator yield the single
block StreamText "ab". -/
theorem stream_identity_ignored (v : ExecutionView) (n₁ n₂ : StreamName)
    (t t₁ t₂ : String) :
    v.push_message (.StreamContent ⟨n₁, t⟩) = v.push_message (.StreamContent ⟨n₂, t⟩)
    ∧ ((v.push_message (.StreamContent ⟨n₁, t₁⟩)).push_message
          (.StreamContent ⟨n₂, t₂⟩)).outputs.length
      = (v.push_message (.StreamContent ⟨n₁, t₁⟩)).outputs.length
    ∧ (((ExecutionView.new 0).push_message
          (.StreamContent ⟨.stdout, "a"⟩)).push_message
          (.StreamContent ⟨.stderr, "b"⟩)).outputs
      = [OutputType.Stream ⟨"ab"⟩] := by
  have key : ∀ (w : ExecutionView) (buf : TerminalOutput),
      w.outputs.getLast? = some (OutputType.Stream buf) →
      ∀ (n : StreamName) (t' : String),
        (w.push_message (.StreamContent ⟨n, t'⟩)).outputs.length = w.outputs.length := by
    intro w buf hl n t'
    rw [push_stream_merge w n t' buf hl]
    conv => rhs; rw [eq_dropLast_concat w.outputs _ hl]
    simp
  refine ⟨rfl, ?_, rfl⟩
  have last_stream : ∃ buf, (v.push_message (.StreamContent ⟨n₁, t₁⟩)).outputs.getLast?
      = some (OutputType.Stream buf) := by
    cases hl : v.outputs.getLast? with
    | none =>
        rw [push_stream_fresh v n₁ t₁ (by simp [hl])]
        exact ⟨_, List.getLast?_concat _⟩
    | some o =>
        cases o with
        | Stream buf =>
            rw [push_stream_merge v n₁ t₁ buf hl]
            exact ⟨_, List.getLast?_concat _⟩
        | Plain s =>
            rw [push_stream_fresh v n₁ t₁ (by simp [hl])]
            exact ⟨_, List.getLast?_concat _⟩
        | Media mt val =>
            rw [push_stream_fresh v n₁ t₁ (by simp [hl])]
            exact ⟨_, List.getLast?_concat _⟩
        | ErrorOutput en ev tb =>
            rw [push_stream_fresh v n₁ t₁ (by simp [hl])]
            exact ⟨_, List.getLast?_concat _⟩
  obtain ⟨buf, hbuf⟩ := last_stream
  exact key _ buf hbuf n₂ t₂

end Outputs
